import Mathlib

set_option maxHeartbeats 1000000

/-!
Shallow embedding of the workflow evaluation engine in
`src/services/workflowExecutor.ts` (repository `trigger-workflow`), together
with theorems settling the frozen specification claims.

Modelling conventions:
* JavaScript runtime values are modelled by `TW.JSVal`; numbers are modelled
  as integers (plus an explicit `nan`), since no claim depends on fractional
  or floating-point behaviour.
* The engine's only environmental input, `Date.now()` / wall-clock
  timestamps, is modelled by a `clock : Nat` counter threaded through the
  state; every appended log entry consumes one tick.
* `async`/`await` and the simulated pacing delays are pure no-ops in the
  source (they only await timers), so the embedding is a pure state-passing
  function.
* Log-entry `details` payloads are not modelled: no claim refers to them.
-/

namespace TW

/-- JavaScript-like runtime values. Objects are association lists; a spread
`{...a, ...b}` is modelled by list append with a last-binding-wins lookup. -/
inductive JSVal where
  | num (n : Int)
  | nan
  | str (s : String)
  | bool (b : Bool)
  | null
  | undef
  | obj (fields : List (String × JSVal))

/-- JavaScript truthiness of a value (`0`, `NaN`, `""`, `false`, `null`,
`undefined` are falsy; every object is truthy). -/
def jsTruthy : JSVal → Bool
  | JSVal.num n => decide (n ≠ 0)
  | JSVal.nan => false
  | JSVal.str s => decide (s ≠ "")
  | JSVal.bool b => b
  | JSVal.null => false
  | JSVal.undef => false
  | JSVal.obj _ => true

/-- ASCII lower-casing of one character (JavaScript `toLowerCase` on the
engine's ASCII config strings). -/
def chLower (c : Char) : Char :=
  if 'A' ≤ c ∧ c ≤ 'Z' then Char.ofNat (c.toNat + 32) else c

/-- Lower-case a string (structurally, so that proofs can evaluate it). -/
def strLower (s : String) : String :=
  String.mk (s.toList.map chLower)

/-- Is this an ASCII whitespace character? -/
def isWsp (c : Char) : Bool :=
  c == ' ' || c == '\t' || c == '\n' || c == '\r'

/-- Drop leading whitespace. -/
def dropLeadingWsp : List Char → List Char
  | [] => []
  | c :: cs => if isWsp c then dropLeadingWsp cs else c :: cs

/-- JavaScript `String.prototype.trim` (both ends). -/
def strTrim (s : String) : String :=
  String.mk ((dropLeadingWsp (dropLeadingWsp s.toList).reverse).reverse)

/-- Split a character list at every occurrence of `sep`; like JavaScript
`split`, the result always has one (possibly empty) segment more than the
number of separators. -/
def charSplit (sep : Char) : List Char → List (List Char)
  | [] => [[]]
  | c :: cs =>
    let r := charSplit sep cs
    if c == sep then [] :: r
    else
      match r with
      | [] => [[c]]
      | h :: t => (c :: h) :: t

/-- JavaScript `s.split(sep)` for a one-character separator (the source
only splits on `"."` and `","`). -/
def strSplit (s : String) (sep : Char) : List String :=
  (charSplit sep s.toList).map (fun cs => String.mk cs)

/-- Accumulate the value of a decimal digit string; `none` if a non-digit
occurs. -/
def digitsValAux : List Char → Nat → Option Nat
  | [], acc => some acc
  | c :: cs, acc =>
    if c.isDigit then digitsValAux cs (acc * 10 + (c.toNat - 48)) else none

/-- JavaScript `Number(string)` coercion, restricted to integer literals:
whitespace is trimmed, the empty string coerces to `0`, an optional sign is
followed by decimal digits, anything else is NaN (`none`). Fractional,
exponential and hexadecimal literals are not modelled (no claim depends on
them). -/
def parseJsNum (s : String) : Option Int :=
  let t := strTrim s
  if t == "" then some 0
  else
    match t.toList with
    | '-' :: cs =>
      match cs with
      | [] => none
      | _ => (digitsValAux cs 0).map (fun n => -(n : Int))
    | '+' :: cs =>
      match cs with
      | [] => none
      | _ => (digitsValAux cs 0).map (fun n => (n : Int))
    | cs => (digitsValAux cs 0).map (fun n => (n : Int))

/-- JavaScript `Number(v)` coercion; `none` models NaN. Objects coerce to
NaN (the engine's objects are plain records whose primitive coercion is
`"[object Object]"`). -/
def jsToNumber : JSVal → Option Int
  | JSVal.num n => some n
  | JSVal.nan => none
  | JSVal.str s => parseJsNum s
  | JSVal.bool b => some (if b then 1 else 0)
  | JSVal.null => some 0
  | JSVal.undef => none
  | JSVal.obj _ => none

/-- JavaScript `String(v)` coercion. -/
def jsToString : JSVal → String
  | JSVal.num n => toString n
  | JSVal.nan => "NaN"
  | JSVal.str s => s
  | JSVal.bool b => if b then "true" else "false"
  | JSVal.null => "null"
  | JSVal.undef => "undefined"
  | JSVal.obj _ => "[object Object]"

/-- The source pattern `String(v || "")`: a falsy value is replaced by the
empty string before string coercion. -/
def jsOrEmptyStr (v : JSVal) : String :=
  if jsTruthy v then jsToString v else ""

/-- Loose equality of an integer against a value, the numeric side of
JavaScript `==`. -/
def looseEqNum (n : Int) : JSVal → Bool
  | JSVal.num m => decide (n = m)
  | JSVal.nan => false
  | JSVal.str s =>
    match parseJsNum s with
    | some m => decide (n = m)
    | none => false
  | JSVal.bool b => decide (n = (if b then 1 else 0))
  | JSVal.null => false
  | JSVal.undef => false
  | JSVal.obj _ => false

/-- JavaScript loose equality `==` on the modelled values. Distinct object
references are never loosely equal in the source's usage; object-to-primitive
corner cases are modelled as `false`. -/
def looseEq : JSVal → JSVal → Bool
  | JSVal.num n, v => looseEqNum n v
  | v, JSVal.num n => looseEqNum n v
  | JSVal.nan, _ => false
  | _, JSVal.nan => false
  | JSVal.str a, JSVal.str b => a == b
  | JSVal.str s, JSVal.bool b => decide (parseJsNum s = some (if b then 1 else 0))
  | JSVal.bool b, JSVal.str s => decide (parseJsNum s = some (if b then 1 else 0))
  | JSVal.bool a, JSVal.bool b => a == b
  | JSVal.null, JSVal.null => true
  | JSVal.null, JSVal.undef => true
  | JSVal.undef, JSVal.null => true
  | JSVal.undef, JSVal.undef => true
  | JSVal.null, _ => false
  | JSVal.undef, _ => false
  | JSVal.obj _, _ => false
  | JSVal.str _, JSVal.null => false
  | JSVal.str _, JSVal.undef => false
  | JSVal.str _, JSVal.obj _ => false
  | JSVal.bool _, JSVal.null => false
  | JSVal.bool _, JSVal.undef => false
  | JSVal.bool _, JSVal.obj _ => false

/-- Does `needle` occur at the head of `hay`? -/
def leadsWith : List Char → List Char → Bool
  | [], _ => true
  | _ :: _, [] => false
  | a :: as, b :: bs => a == b && leadsWith as bs

/-- Does `needle` occur anywhere inside `hay`? (JavaScript
`hay.includes(needle)`.) -/
def occursIn (needle : List Char) : List Char → Bool
  | [] => needle.isEmpty
  | c :: rest => leadsWith needle (c :: rest) || occursIn needle rest

/-- JavaScript `hay.includes(needle)` on strings. -/
def strIncludes (hay needle : String) : Bool :=
  occursIn needle.toList hay.toList

/-- Regular-expression acceptance for the fragment actually produced by the
source (`.` matches any character, postfix `*` is Kleene star, every other
character is a literal), with explicit structural fuel: every recursive
call shrinks `pat.length + input.length`, so with fuel above that sum the
fuel never runs out. -/
def reAcceptFuel : Nat → List Char → List Char → Bool
  | 0, _, _ => false
  | fuel + 1, pat, input =>
    match pat, input with
    | [], rest => rest.isEmpty
    | p :: '*' :: ps, rest =>
      reAcceptFuel fuel ps rest ||
        (match rest with
         | [] => false
         | c :: cs => (p == '.' || p == c) && reAcceptFuel fuel (p :: '*' :: ps) cs)
    | _ :: _, [] => false
    | p :: ps, c :: cs => (p == '.' || p == c) && reAcceptFuel fuel ps cs

/-- Does the pattern match the whole input? -/
def reAccept (pat input : List Char) : Bool :=
  reAcceptFuel (pat.length + input.length + 1) pat input

/-- Unanchored JavaScript `new RegExp(pat).test(input)`: the pattern may
match any substring, modelled by sandwiching the pattern between `.*`s and
requiring a full match. Patterns that are invalid in JavaScript (and there
caught, yielding `false`) are treated by this total matcher as literals;
no claim depends on such patterns. -/
def jsRegexTest (pat input : String) : Bool :=
  reAccept ('.' :: '*' :: (pat.toList ++ ['.', '*'])) input.toList

/-- The source's `eventType.replace(/\*/g, ".*")`: each `*` becomes `.*`,
every other character is kept. -/
def globToRegexChars (s : List Char) : List Char :=
  s.foldr (fun c acc => (if c == '*' then ['.', '*'] else [c]) ++ acc) []

/-- `compareValues` from `workflowExecutor.ts` (lines 419-484): the typed
comparison primitive. Total by construction, mirroring the source's
switch with a `false` default. -/
def compareValues (actual : JSVal) (operator : String) (expected : JSVal) : Bool :=
  let actualNum := jsToNumber actual
  let expectedNum := jsToNumber expected
  let actualStr := strLower (jsOrEmptyStr actual)
  let expectedStr := strLower (jsOrEmptyStr expected)
  if operator = "EQ" ∨ operator = "==" then looseEq actual expected
  else if operator = "NEQ" ∨ operator = "!=" then !(looseEq actual expected)
  else if operator = "GT" ∨ operator = ">" then
    match actualNum, expectedNum with
    | some a, some b => decide (a > b)
    | _, _ => false
  else if operator = "LT" ∨ operator = "<" then
    match actualNum, expectedNum with
    | some a, some b => decide (a < b)
    | _, _ => false
  else if operator = "GTE" ∨ operator = ">=" then
    match actualNum, expectedNum with
    | some a, some b => decide (a ≥ b)
    | _, _ => false
  else if operator = "LTE" ∨ operator = "<=" then
    match actualNum, expectedNum with
    | some a, some b => decide (a ≤ b)
    | _, _ => false
  else if operator = "CONTAINS" then strIncludes actualStr expectedStr
  else if operator = "MATCHES" then jsRegexTest expectedStr actualStr
  else if operator = "IN" then
    ((strSplit (jsToString expected) ',').map (fun s => strTrim s)).contains (jsToString actual)
  else if operator = "NOT_IN" then
    !(((strSplit (jsToString expected) ',').map (fun s => strTrim s)).contains (jsToString actual))
  else if operator = "RANGE" then
    let nums := (strSplit (jsToString expected) ',').map parseJsNum
    match actualNum, nums.getD 0 none, nums.getD 1 none with
    | some a, some mn, some mx => decide (a ≥ mn) && decide (a ≤ mx)
    | _, _, _ => false
  else false

/-- The operator tags handled by `compareValues`' switch (also the set
documented by the specification, section 4.1). -/
def knownOperators : List String :=
  ["EQ", "==", "NEQ", "!=", "GT", ">", "LT", "<", "GTE", ">=", "LTE", "<=",
   "CONTAINS", "MATCHES", "IN", "NOT_IN", "RANGE"]

/-- The `TestEvent` record from `types.ts`: the external stimulus. -/
structure TestEvent where
  type : String
  data : List (String × JSVal) := []
  globals : List (String × JSVal) := []

/-- The per-run `ExecutionContext` from `workflowExecutor.ts` (lines 17-22);
`vars` models the reserved, unused `variables` field (renamed because
`variables` is a Lean keyword). -/
structure ExecutionContext where
  event : TestEvent
  data : List (String × JSVal) := []
  globals : List (String × JSVal) := []
  vars : List (String × JSVal) := []

/-- Does the object hold a binding for `k`? -/
def objHas (o : List (String × JSVal)) (k : String) : Bool :=
  o.any (fun p => p.1 == k)

/-- Property lookup on an association-list object; the LAST binding wins,
matching the spread semantics `{...a, ...b}` modelled by append. -/
def objGet : List (String × JSVal) → String → JSVal
  | [], _ => JSVal.undef
  | (k', v) :: rest, k =>
    if objHas rest k then objGet rest k
    else if k' == k then v else JSVal.undef

/-- JavaScript property access `v[k]`; access on a non-object yields
`undefined`. -/
def jsGet : JSVal → String → JSVal
  | JSVal.obj o, k => objGet o k
  | _, _ => JSVal.undef

/-- The event record spread into the merged view: keys `type`, `data`,
`globals`. -/
def eventToObj (e : TestEvent) : List (String × JSVal) :=
  [("type", JSVal.str e.type), ("data", JSVal.obj e.data), ("globals", JSVal.obj e.globals)]

/-- The merged view `{...context.data, ...context.event, ...context.globals}`
built by `getValueFromPath`; later overlays win on key collision via
`objGet`'s last-binding-wins lookup. -/
def mergedView (ctx : ExecutionContext) : List (String × JSVal) :=
  ctx.data ++ eventToObj ctx.event ++ ctx.globals

/-- The walk of `getValueFromPath`: step through the parts, returning
`undefined` as soon as the current value is `null` or `undefined`. -/
def pathWalk : List String → JSVal → JSVal
  | [], v => v
  | p :: ps, v =>
    match v with
    | JSVal.null => JSVal.undef
    | JSVal.undef => JSVal.undef
    | _ => pathWalk ps (jsGet v p)

/-- `getValueFromPath` from `workflowExecutor.ts` (lines 396-414): the
dotted-path field resolver. -/
def getValueFromPath (path : String) (ctx : ExecutionContext) : JSVal :=
  if path == "" then JSVal.undef
  else pathWalk (strSplit path '.') (JSVal.obj (mergedView ctx))

/-- The JavaScript defaulting pattern `s || dflt` for an optional string
field: absent or empty strings are replaced by the default. -/
def jsStrOr (o : Option String) (dflt : String) : String :=
  match o with
  | none => dflt
  | some s => if s == "" then dflt else s

/-- A simple condition triple `{field, operator, value}` as read off the
untyped node data. -/
structure SimpleCondData where
  field : Option String := none
  operator : Option String := none
  value : JSVal := JSVal.undef

/-- One configured action `{type, label, ...}` (only the fields the engine
reads for its trace). -/
structure ActionData where
  type : String := ""
  label : Option String := none

/-- The untyped `node.data` bag, restricted to the fields the engine reads
(`workflowExecutor.ts` reads them ad hoc with defaults). -/
structure NodeData where
  eventType : Option String := none
  name : String := ""
  priority : Option Int := none
  mode : Option String := none
  field : Option String := none
  operator : Option String := none
  value : JSVal := JSVal.undef
  logic : Option String := none
  conditions : List SimpleCondData := []
  actions : List ActionData := []

/-- In `SIMPLE` mode the node's own data acts as the condition triple. -/
def NodeData.toSimple (d : NodeData) : SimpleCondData :=
  { field := d.field, operator := d.operator, value := d.value }

/-- `evaluateSimpleCondition` from `workflowExecutor.ts` (lines 356-366). -/
def evaluateSimpleCondition (cond : SimpleCondData) (ctx : ExecutionContext) : Bool :=
  let fieldPath := jsStrOr cond.field ""
  let operator := jsStrOr cond.operator "EQ"
  let expectedValue := cond.value
  let actualValue := getValueFromPath fieldPath ctx
  compareValues actualValue operator expectedValue

/-- `evaluateGroupCondition` from `workflowExecutor.ts` (lines 371-391):
AND/OR combination over simple sub-conditions. -/
def evaluateGroupCondition (d : NodeData) (ctx : ExecutionContext) : Bool :=
  let logic := jsStrOr d.logic "AND"
  let conds := d.conditions
  if conds.isEmpty then true
  else
    let results := conds.map (fun c => evaluateSimpleCondition c ctx)
    if logic == "AND" then results.all (fun r => r == true)
    else if logic == "OR" then results.any (fun r => r == true)
    else false

/-- The `NodeType` enum from `types.ts`. -/
inductive NodeType where
  | TRIGGER
  | CONDITION
  | ACTION
deriving DecidableEq

/-- The string value of the enum member, as interpolated into trace
messages. -/
def NodeType.asString : NodeType → String
  | NodeType.TRIGGER => "TRIGGER"
  | NodeType.CONDITION => "CONDITION"
  | NodeType.ACTION => "ACTION"

/-- A workflow node (`types.ts`); canvas position is irrelevant to
evaluation and omitted. -/
structure WorkflowNode where
  id : String
  type : NodeType
  name : String := ""
  subtitle : String := ""
  data : NodeData := {}
  enabled : Bool := true

/-- A directed edge (`types.ts`). -/
structure Connection where
  id : String := ""
  sourceId : String
  targetId : String

/-- Trace levels from `types.ts`' `LogEntry`. -/
inductive LogLevel where
  | INIT
  | TRIGGER
  | CONDITION
  | ACTION
  | SUCCESS
  | WAIT
  | ERROR
  | AI
  | TEST
deriving DecidableEq

/-- A trace entry; `timestamp` is the clock tick at which it was appended
(modelling `Date.now()` / `toLocaleTimeString()`), `details` payloads are
not modelled. -/
structure LogEntry where
  id : String
  timestamp : Nat
  type : String
  level : LogLevel
  message : String

/-- The executor's per-run mutable state: trace, executed set (insertion
order kept, as `Array.from(Set)` would return it), condition-outcome map
(latest binding first), and the modelled wall clock. -/
structure ExecState where
  logs : List LogEntry := []
  executedNodes : List String := []
  nodeConditions : List (String × Bool) := []
  clock : Nat := 0

/-- Append a trace entry stamped with the current clock, advancing the
clock. -/
def ExecState.addLog (s : ExecState) (mk : Nat → LogEntry) : ExecState :=
  { s with logs := s.logs ++ [mk s.clock], clock := s.clock + 1 }

/-- `Map.set` on the condition-outcome table (latest binding shadows). -/
def ExecState.setCond (s : ExecState) (k : String) (b : Bool) : ExecState :=
  { s with nodeConditions := (k, b) :: s.nodeConditions }

/-- `Map.get` on the condition-outcome table. -/
def mapGet (m : List (String × Bool)) (k : String) : Option Bool :=
  match m.find? (fun p => p.1 == k) with
  | some p => some p.2
  | none => none

/-- `Set.add` on the executed set (idempotent, insertion order kept). -/
def ExecState.markExecuted (s : ExecState) (id : String) : ExecState :=
  if s.executedNodes.contains id then s
  else { s with executedNodes := s.executedNodes ++ [id] }

/-- The `INIT` entry appended at the top of `executeNode`. -/
def execStartEntry (node : WorkflowNode) (t : Nat) : LogEntry :=
  { id := "exec-" ++ toString t ++ "-" ++ node.id ++ "-start"
    timestamp := t
    type := "ENGINE"
    level := LogLevel.INIT
    message := "Executing " ++ node.type.asString ++ " node: " ++ node.name }

/-- The `ERROR` entry appended by `executeNode`'s catch block. -/
def nodeErrorEntry (node : WorkflowNode) (err : String) (t : Nat) : LogEntry :=
  { id := "exec-" ++ toString t ++ "-" ++ node.id ++ "-error"
    timestamp := t
    type := "ENGINE"
    level := LogLevel.ERROR
    message := "Error executing " ++ node.type.asString ++ ": " ++ node.name ++ " [" ++ err ++ "]" }

/-- The `TRIGGER` entry appended by `executeTrigger`. -/
def triggerFiredEntry (node : WorkflowNode) (t : Nat) : LogEntry :=
  { id := "exec-" ++ toString t ++ "-" ++ node.id ++ "-trigger"
    timestamp := t
    type := "ENGINE"
    level := LogLevel.TRIGGER
    message := "Trigger fired: " ++ node.data.name }

/-- The `CONDITION` entry appended by `executeCondition`. -/
def conditionEntry (node : WorkflowNode) (passed : Bool) (t : Nat) : LogEntry :=
  { id := "exec-" ++ toString t ++ "-" ++ node.id ++ "-condition"
    timestamp := t
    type := "ENGINE"
    level := LogLevel.CONDITION
    message := "Condition " ++ (if passed then "PASSED" else "FAILED") ++ ": " ++ node.name }

/-- The `ACTION` entry appended at the top of `executeAction`. -/
def actionStartEntry (node : WorkflowNode) (count : Nat) (mode : String) (t : Nat) : LogEntry :=
  { id := "exec-" ++ toString t ++ "-" ++ node.id ++ "-action-start"
    timestamp := t
    type := "ENGINE"
    level := LogLevel.ACTION
    message := "Executing " ++ toString count ++ " action(s) in " ++ mode ++ " mode" }

/-- The `ACTION` entry appended by `executeSingleAction`. -/
def singleActionEntry (idx : Nat) (a : ActionData) (t : Nat) : LogEntry :=
  { id := "exec-" ++ toString t ++ "-action-" ++ toString idx
    timestamp := t
    type := "ENGINE"
    level := LogLevel.ACTION
    message := "Executing action [" ++ toString (idx + 1) ++ "]: " ++ a.type }

/-- The `ACTION` entry appended at the bottom of `executeAction`. -/
def actionCompleteEntry (node : WorkflowNode) (t : Nat) : LogEntry :=
  { id := "exec-" ++ toString t ++ "-" ++ node.id ++ "-action-complete"
    timestamp := t
    type := "ENGINE"
    level := LogLevel.ACTION
    message := "Actions completed: " ++ node.name }

/-- The `ERROR` entry appended when no enabled trigger exists. -/
def noTriggerEntry (t : Nat) : LogEntry :=
  { id := "exec-" ++ toString t ++ "-no-trigger"
    timestamp := t
    type := "ENGINE"
    level := LogLevel.ERROR
    message := "No enabled trigger nodes found" }

/-- The `ERROR` entry appended when the iteration cap is reached. -/
def timeoutEntry (t : Nat) : LogEntry :=
  { id := "exec-" ++ toString t ++ "-timeout"
    timestamp := t
    type := "ENGINE"
    level := LogLevel.ERROR
    message := "Workflow execution timeout - possible infinite loop" }

/-- A kind-specific execution step: given the node, context and state it
returns the updated state together with `some err` when the step threw
(state updates made before the throw persist, as JavaScript mutation
would). `executeNode`'s try/catch is verified generically over the step;
`concreteStep` below is the step the source actually runs. -/
def Step : Type :=
  WorkflowNode → ExecutionContext → ExecState → ExecState × Option String

/-- The dispatch of `executeTrigger` / `executeCondition` / `executeAction`
(`workflowExecutor.ts` lines 189-199 and 217-351). In the typed model none
of these steps throws; throwing steps exist in the source only through
dynamic typing, and the claims about them are proved generically over
`Step`. -/
def concreteStep : Step := fun node ctx s =>
  match node.type with
  | NodeType.TRIGGER =>
    let s1 := s.addLog (triggerFiredEntry node)
    (s1.setCond node.id true, none)
  | NodeType.CONDITION =>
    let mode := jsStrOr node.data.mode "SIMPLE"
    let passed :=
      if mode == "SIMPLE" then evaluateSimpleCondition node.data.toSimple ctx
      else if mode == "GROUP" then evaluateGroupCondition node.data ctx
      else false
    let s1 := s.addLog (conditionEntry node passed)
    (s1.setCond node.id passed, none)
  | NodeType.ACTION =>
    let actions := node.data.actions
    let mode := jsStrOr node.data.mode "SINGLE"
    let s1 := s.addLog (actionStartEntry node actions.length mode)
    let s2 := actions.enum.foldl (fun st ia => st.addLog (singleActionEntry ia.1 ia.2)) s1
    let s3 := s2.addLog (actionCompleteEntry node)
    (s3.setCond node.id true, none)

/-- `executeNode` from `workflowExecutor.ts` (lines 175-212): log the start
entry, run the kind-specific step inside the try, mark executed on success,
downgrade a thrown error to an `ERROR` entry on failure. -/
def executeNode (step : Step) (node : WorkflowNode) (ctx : ExecutionContext)
    (s : ExecState) : ExecState :=
  let s1 := s.addLog (execStartEntry node)
  match step node ctx s1 with
  | (s2, none) => s2.markExecuted node.id
  | (s2, some e) => s2.addLog (nodeErrorEntry node e)

/-- `nodePassedCondition` from `workflowExecutor.ts` (lines 489-498). -/
def nodePassedCondition (nodes : List WorkflowNode) (s : ExecState)
    (nodeId : String) : Bool :=
  match nodes.find? (fun n => n.id == nodeId) with
  | none => false
  | some n =>
    if n.type = NodeType.TRIGGER ∨ n.type = NodeType.ACTION then true
    else mapGet s.nodeConditions nodeId == some true

/-- The body of the propagation loop for one node (`workflowExecutor.ts`
lines 131-157): skip if already executed, a trigger, parentless, with an
unexecuted parent, or with no passing parent; otherwise execute the node
and record progress. -/
def passBody (step : Step) (nodes : List WorkflowNode) (conns : List Connection)
    (ctx : ExecutionContext) (acc : ExecState × Bool) (node : WorkflowNode) :
    ExecState × Bool :=
  let s := acc.1
  if s.executedNodes.contains node.id then acc
  else if node.type = NodeType.TRIGGER then acc
  else
    let parentConnections := conns.filter (fun c => c.targetId == node.id)
    if parentConnections.isEmpty then acc
    else if !(parentConnections.all (fun c => s.executedNodes.contains c.sourceId)) then acc
    else if !(parentConnections.any (fun c => nodePassedCondition nodes s c.sourceId)) then acc
    else (executeNode step node ctx s, true)

/-- One pass of the propagation loop (`workflowExecutor.ts` lines 131-157):
fold over the (enabled) nodes, executing each whose gates clear, and report
whether anything was attempted. -/
def propagationPass (step : Step) (nodes : List WorkflowNode)
    (conns : List Connection) (ctx : ExecutionContext)
    (s : ExecState) : ExecState × Bool :=
  nodes.foldl (passBody step nodes conns ctx) (s, false)

/-- The iteration cap of the propagation loop. -/
def maxIterations : Nat := 100

/-- The bounded fixpoint loop of `propagateExecution` (lines 127-158),
written with structural fuel: called with `fuel = maxIterations` and
`iterations = 0` the fuel can never run out before the `iterations <
maxIterations` guard fails, so the returned iteration count matches the
source's counter exactly. -/
def propagateLoop (step : Step) (nodes : List WorkflowNode)
    (conns : List Connection) (ctx : ExecutionContext) :
    Nat → Nat → ExecState → ExecState × Nat
  | 0, iterations, s => (s, iterations)
  | fuel + 1, iterations, s =>
    if iterations < maxIterations then
      let r := propagationPass step nodes conns ctx s
      if r.2 then propagateLoop step nodes conns ctx fuel (iterations + 1) r.1
      else (r.1, iterations + 1)
    else (s, iterations)

/-- `propagateExecution` from `workflowExecutor.ts` (lines 122-170): run the
bounded loop, then append the timeout `ERROR` entry when the cap was hit. -/
def propagateExecution (step : Step) (nodes : List WorkflowNode)
    (conns : List Connection) (ctx : ExecutionContext) (s : ExecState) : ExecState :=
  let r := propagateLoop step nodes conns ctx maxIterations 0 s
  if maxIterations ≤ r.2 then r.1.addLog timeoutEntry else r.1

/-- `findTriggerNodes` (lines 94-96). -/
def findTriggerNodes (nodes : List WorkflowNode) : List WorkflowNode :=
  nodes.filter (fun n => n.type = NodeType.TRIGGER)

/-- `shouldExecuteTrigger` (lines 101-117): `"any"` always fires, a pattern
containing `*` is glob-matched (each `*` replaced by `.*`, anchored), else
exact equality. -/
def shouldExecuteTrigger (triggerNode : WorkflowNode) (event : TestEvent) : Bool :=
  let eventType := jsStrOr triggerNode.data.eventType "any"
  if eventType == "any" then true
  else if eventType.toList.contains '*' then
    reAccept (globToRegexChars eventType.toList) event.type.toList
  else event.type == eventType

/-- The run outcome `ExecutionResult` (lines 9-15); `failedNode` is never
assigned by the source. -/
structure ExecutionResult where
  success : Bool
  logs : List LogEntry := []
  executedNodes : List String := []
  failedNode : Option String := none
  error : Option String := none

/-- The whole run — `new WorkflowExecutor(nodes, connections)` followed by
`execute(event)` (lines 31-89) — generic in the kind-specific step. The
constructor keeps only enabled nodes but all connections. `clock0` seeds
the modelled wall clock. Returns the result together with the final
internal state (for stating determinism of condition outcomes). -/
def executeWith (step : Step) (nodes0 : List WorkflowNode)
    (conns : List Connection) (event : TestEvent) (clock0 : Nat) :
    ExecutionResult × ExecState :=
  let nodes := nodes0.filter (fun n => n.enabled)
  let ctx : ExecutionContext :=
    { event := event, data := event.data, globals := event.globals, vars := [] }
  let s0 : ExecState := { clock := clock0 }
  let triggerNodes := findTriggerNodes nodes
  if triggerNodes.isEmpty then
    let s1 := s0.addLog noTriggerEntry
    ({ success := false, logs := s1.logs, executedNodes := [],
       error := some "No trigger nodes found" }, s1)
  else
    let s1 := triggerNodes.foldl
      (fun s t => if shouldExecuteTrigger t event then executeNode step t ctx s else s) s0
    let s2 := propagateExecution step nodes conns ctx s1
    ({ success := true, logs := s2.logs, executedNodes := s2.executedNodes,
       error := none }, s2)

/-- `executeWorkflow` from `workflowExecutor.ts` (lines 535-542), with the
concrete kind-specific step. -/
def executeWorkflow (nodes : List WorkflowNode) (conns : List Connection)
    (event : TestEvent) (clock0 : Nat) : ExecutionResult :=
  (executeWith concreteStep nodes conns event clock0).1

/-- The validator's recursive `hasCycle(nodeId)` (lines 569-584): mark the
node visited and push it on the recursion stack, then scan its outgoing
edges in order — an edge to a node on the stack is a cycle, an edge to an
unvisited node recurses into it, and a found cycle stops the scan (the
early `return true` is modelled by the flag-guarded fold, whose body is a
no-op once the flag is set). The threaded `visited` set is shared across
the whole scan; recursion only enters unvisited nodes, so with fuel above
the number of distinct node ids the fuel never runs out. -/
def cycleDfs (conns : List Connection) :
    Nat → String → List String → List String → Bool × List String
  | 0, _, visited, _ => (false, visited)
  | fuel + 1, nodeId, visited, stack =>
    let visited1 := nodeId :: visited
    let stack1 := nodeId :: stack
    (conns.filter (fun k => k.sourceId == nodeId)).foldl
      (fun acc c =>
        if acc.1 then acc
        else if !(acc.2.contains c.targetId) then
          let r := cycleDfs conns fuel c.targetId acc.2 stack1
          (r.1, r.2)
        else if stack1.contains c.targetId then (true, acc.2)
        else acc)
      (false, visited1)

/-- The validator's top-level `hasCycle(node.id)` call, with an empty
recursion stack. -/
def hasCycle (conns : List Connection) (fuel : Nat) (nodeId : String)
    (visited : List String) : Bool × List String :=
  cycleDfs conns fuel nodeId visited []

/-- The outer cycle-scan loop of `validateWorkflow` (lines 586-593):
visit each not-yet-visited node, stopping at the first cycle found. -/
def cycleScan (conns : List Connection) (fuel : Nat) :
    List WorkflowNode → List String → Bool
  | [], _ => false
  | n :: ns, visited =>
    if visited.contains n.id then cycleScan conns fuel ns visited
    else
      let r := hasCycle conns fuel n.id visited
      if r.1 then true else cycleScan conns fuel ns r.2

/-- The validator's verdict record. -/
structure ValidationResult where
  valid : Bool
  errors : List String

/-- The generic cycle error message. -/
def cycleErrorMsg : String := "Circular dependency detected in workflow"

/-- `validateWorkflow` from `workflowExecutor.ts` (lines 547-605): orphan
check, cycle detection (one generic error, scan stops at the first cycle),
trigger-presence check. -/
def validateWorkflow (nodes : List WorkflowNode) (conns : List Connection) :
    ValidationResult :=
  let connectedNodeIds := conns.map (fun c => c.sourceId) ++ conns.map (fun c => c.targetId)
  let orphanErrors := nodes.filterMap (fun n =>
    if n.type ≠ NodeType.TRIGGER ∧ ¬(connectedNodeIds.contains n.id = true) then
      some ("Node \"" ++ n.name ++ "\" (" ++ n.id ++ ") is not connected")
    else none)
  let fuel := nodes.length + conns.length + 1
  let cycleErrors := if cycleScan conns fuel nodes [] then [cycleErrorMsg] else []
  let triggerErrors :=
    if (nodes.filter (fun n => n.type = NodeType.TRIGGER)).isEmpty then
      ["No trigger node found in workflow"]
    else []
  let errors := orphanErrors ++ cycleErrors ++ triggerErrors
  { valid := errors.isEmpty, errors := errors }

/-- The CONTAINS semantics the specification's words describe: a
case-insensitive substring test on the plain string forms (`String(v)`) of
both operands. Written from the spec's words, to be compared against
`compareValues`, whose source guards both operands with `v || ""` first. -/
def specContains (actual expected : JSVal) : Bool :=
  strIncludes (strLower (jsToString actual)) (strLower (jsToString expected))

/-- Observational equality of two run states: same executed set and same
condition-outcome table (trace contents and clock may differ). This is the
part of the state that steers every engine decision. -/
def obsEq (s1 s2 : ExecState) : Prop :=
  s1.executedNodes = s2.executedNodes ∧ s1.nodeConditions = s2.nodeConditions

/-- A step respects observational equality: on observationally equal states
it makes observationally equal updates and throws identically. -/
def stepCongr (step : Step) : Prop :=
  ∀ (node : WorkflowNode) (ctx : ExecutionContext) (s1 s2 : ExecState),
    obsEq s1 s2 →
    obsEq (step node ctx s1).1 (step node ctx s2).1 ∧
    (step node ctx s1).2 = (step node ctx s2).2

/-- A step is tame when it never touches the executed set and never erases
an existing condition-outcome entry (it may log, tick the clock, and add
new outcomes). Every kind-specific step of the source is tame. -/
def stepTame (step : Step) : Prop :=
  ∀ (node : WorkflowNode) (ctx : ExecutionContext) (s : ExecState),
    (step node ctx s).1.executedNodes = s.executedNodes ∧
    (∀ k b, mapGet s.nodeConditions k = some b →
      mapGet (step node ctx s).1.nodeConditions k = some b)

/-- The gates of node `n` clear but `n` itself is unexecuted: `n` has at
least one incoming connection, every source of its incoming connections is
executed, some source passed, and `n` is not in the executed set. -/
def stuckReady (nodes : List WorkflowNode) (conns : List Connection)
    (n : WorkflowNode) (s : ExecState) : Prop :=
  s.executedNodes.contains n.id = false ∧
  conns.filter (fun c => c.targetId == n.id) ≠ [] ∧
  (conns.filter (fun c => c.targetId == n.id)).all
    (fun c => s.executedNodes.contains c.sourceId) = true ∧
  (conns.filter (fun c => c.targetId == n.id)).any
    (fun c => nodePassedCondition nodes s c.sourceId) = true

/-- A kind-specific step that always throws, modelling a node whose
execution step raises on every attempt. -/
def failStep : Step := fun _ _ s => (s, some "boom")

/-- Sample event of type `"e1"` carrying `data.coins = 500`. -/
def evSample : TestEvent := { type := "e1", data := [("coins", JSVal.num 500)] }

/-- Sample enabled trigger node firing on any event. -/
def sampleTrigger : WorkflowNode :=
  { id := "T", type := NodeType.TRIGGER, name := "trig" }

/-- Sample DISABLED node (an action node with `enabled := false`). -/
def sampleDisabled : WorkflowNode :=
  { id := "D", type := NodeType.ACTION, name := "dis", enabled := false }

/-- Sample enabled action node, child of both `sampleTrigger` and
`sampleDisabled` in the claim-C1 graph. -/
def sampleChild : WorkflowNode :=
  { id := "B", type := NodeType.ACTION, name := "child" }

/-- Edge `T → B`. -/
def edgeTB : Connection := { sourceId := "T", targetId := "B" }

/-- Edge `D → B` (from the disabled node). -/
def edgeDB : Connection := { sourceId := "D", targetId := "B" }

/-- The claim-C1 graph: enabled trigger `T` and disabled node `D`, both
parents of the enabled node `B`. -/
def c1Nodes : List WorkflowNode := [sampleTrigger, sampleDisabled, sampleChild]

/-- The claim-C1 connections. -/
def c1Conns : List Connection := [edgeTB, edgeDB]

/-- Does this connection join two enabled nodes of the claim-C1 graph? -/
def c1BothEnabled (c : Connection) : Bool :=
  let enabledIds := (c1Nodes.filter (fun n => n.enabled)).map (fun n => n.id)
  enabledIds.contains c.sourceId && enabledIds.contains c.targetId

/-- Sample context with data, event metadata and globals, for resolver
witnesses. -/
def sampleCtx : ExecutionContext :=
  { event := { type := "e1", data := [("coins", JSVal.num 500)], globals := [("g", JSVal.num 7)] }
    data := [("coins", JSVal.num 500)]
    globals := [("g", JSVal.num 7)] }

/-- Sample execution context for the claim-C10 witness run. -/
def sampleRunCtx : ExecutionContext :=
  { event := evSample, data := evSample.data, globals := evSample.globals }

/-- State in which the trigger `T` has already executed and passed, as it
is after the trigger phase of a run of the claim-C10 witness graph. -/
def sampleAfterTrigger : ExecState :=
  { logs := [], executedNodes := ["T"], nodeConditions := [("T", true)], clock := 2 }

/-- Validator test node `A` (a trigger, so the A-B graphs below produce no
orphan or trigger-presence errors). -/
def valNodeA : WorkflowNode := { id := "A", type := NodeType.TRIGGER, name := "A" }

/-- Validator test node `B`. -/
def valNodeB : WorkflowNode := { id := "B", type := NodeType.CONDITION, name := "B" }

/-- Validator test node `C`. -/
def valNodeC : WorkflowNode := { id := "C", type := NodeType.ACTION, name := "C" }

/-- The cyclic test graph `A→B→A` (two nodes, two edges). -/
def valCycConns : List Connection :=
  [{ sourceId := "A", targetId := "B" }, { sourceId := "B", targetId := "A" }]

/-- The acyclic test graph `A→B→C`. -/
def valAcyConns : List Connection :=
  [{ sourceId := "A", targetId := "B" }, { sourceId := "B", targetId := "C" }]

/-- Sample grouped filter configuration with OR logic. -/
def sampleGroupData : NodeData :=
  { logic := some "OR"
    conditions := [{ field := some "data.coins", operator := some "GTE", value := JSVal.num 100 },
                   { field := some "data.coins", operator := some "LT", value := JSVal.num 0 }] }

/-! ## Theorems settling the claims -/

/-- C8: the validator's cycle check (a depth-first traversal with a
recursion stack, where an edge to a node currently on the stack is a cycle)
reports the graph `A→B→A` as invalid with exactly one generic cycle error
and stops scanning, while the acyclic graph `A→B→C` produces no cycle
error. -/
theorem C8_cycle_detection :
    (validateWorkflow [valNodeA, valNodeB] valCycConns).valid = false ∧
    (validateWorkflow [valNodeA, valNodeB] valCycConns).errors.count cycleErrorMsg = 1 ∧
    (validateWorkflow [valNodeA, valNodeB, valNodeC] valAcyConns).errors.count cycleErrorMsg = 0 :=
  ⟨by rfl, by rfl, by rfl⟩

/-- C5 counterexample: the claim says CONTAINS is a case-insensitive
substring test on the string forms of both operands *including falsy
operands such as 0*; but at `actual = 0`, `expected = "0"` the code
returns `false` while the claimed semantics (`specContains`) yields
`true`, because the source replaces the falsy actual operand by `""`
before coercion. -/
theorem C5_counterexample :
    compareValues (JSVal.num 0) "CONTAINS" (JSVal.str "0") = false ∧
    specContains (JSVal.num 0) (JSVal.str "0") = true :=
  ⟨by rfl, by rfl⟩

/-- C5 amended: CONTAINS is a case-insensitive substring test on the string
forms of both operands, where a falsy operand (`0`, `false`, `null`,
`undefined`, `NaN`, `""`) is first replaced by the empty string; for truthy
operands this coincides with the claimed plain-string-form semantics. -/
theorem C5_contains_amended (actual expected : JSVal) :
    compareValues actual "CONTAINS" expected =
      strIncludes (strLower (jsOrEmptyStr actual)) (strLower (jsOrEmptyStr expected)) ∧
    (jsTruthy actual = true → jsTruthy expected = true →
      compareValues actual "CONTAINS" expected = specContains actual expected) := by
  constructor
  · rfl
  · intro ha he
    show strIncludes (strLower (jsOrEmptyStr actual)) (strLower (jsOrEmptyStr expected)) = _
    simp [jsOrEmptyStr, ha, he, specContains]

/-- C5 witness for the amended theorem's truthy case. -/
theorem C5_contains_amended_witness :
    compareValues (JSVal.str "Hello World") "CONTAINS" (JSVal.str "WORLD") =
      specContains (JSVal.str "Hello World") (JSVal.str "WORLD") :=
  (C5_contains_amended (JSVal.str "Hello World") (JSVal.str "WORLD")).2 rfl rfl

/-- C1 counterexample: in the graph where enabled trigger `T` and disabled
node `D` are both parents of enabled node `B`, the full run executes only
`T` — `B`, despite its enabled, executed, passing parent `T`, never runs —
while the run on the enabled nodes with only the edges joining enabled
nodes executes `T` and `B`; so the two runs differ, refuting the claim. -/
theorem C1_counterexample :
    (executeWorkflow c1Nodes c1Conns evSample 0).executedNodes = ["T"] ∧
    (executeWorkflow (c1Nodes.filter (fun n => n.enabled))
        (c1Conns.filter c1BothEnabled) evSample 0).executedNodes = ["T", "B"] ∧
    (executeWorkflow c1Nodes c1Conns evSample 0).executedNodes ≠
      (executeWorkflow (c1Nodes.filter (fun n => n.enabled))
        (c1Conns.filter c1BothEnabled) evSample 0).executedNodes ∧
    "B" ∉ (executeWorkflow c1Nodes c1Conns evSample 0).executedNodes := by
  have h1 : (executeWorkflow c1Nodes c1Conns evSample 0).executedNodes = ["T"] := rfl
  have h2 : (executeWorkflow (c1Nodes.filter (fun n => n.enabled))
      (c1Conns.filter c1BothEnabled) evSample 0).executedNodes = ["T", "B"] := rfl
  refine ⟨h1, h2, ?_, ?_⟩
  · rw [h1, h2]; decide
  · rw [h1]; decide

/-- C1 amended: disabled nodes are excluded from evaluation (the run over
all nodes equals the run over the enabled nodes only), but the connections
incident to disabled nodes are NOT removed: an edge from a disabled source
still counts as an unexecuted-parent gate, so a node with one disabled
parent and one enabled, executed, passing parent does not execute (node
`B` of the counterexample graph). -/
theorem C1_disabled_amended (step : Step) (nodes : List WorkflowNode)
    (conns : List Connection) (event : TestEvent) (clock0 : Nat) :
    executeWith step nodes conns event clock0 =
      executeWith step (nodes.filter (fun n => n.enabled)) conns event clock0 ∧
    "B" ∉ (executeWorkflow c1Nodes c1Conns evSample 0).executedNodes := by
  constructor
  · have hff : (nodes.filter (fun n => n.enabled)).filter (fun n => n.enabled) =
        nodes.filter (fun n => n.enabled) := by
      rw [List.filter_filter]
      simp
    unfold executeWith
    rw [hff]
  · have h1 : (executeWorkflow c1Nodes c1Conns evSample 0).executedNodes = ["T"] := rfl
    rw [h1]; decide

/-- C4: `compareValues` is total by construction; for the ordering
operators it returns `false` whenever either operand's numeric coercion is
NaN, and for any operator tag outside the handled set it returns
`false`. -/
theorem C4_compare_total (actual expected : JSVal) (op : String) :
    ((op = "GT" ∨ op = ">" ∨ op = "LT" ∨ op = "<" ∨ op = "GTE" ∨ op = ">=" ∨
        op = "LTE" ∨ op = "<=") →
      (jsToNumber actual = none ∨ jsToNumber expected = none) →
      compareValues actual op expected = false) ∧
    (op ∉ knownOperators → compareValues actual op expected = false) := by
  constructor
  · rintro (rfl | rfl | rfl | rfl | rfl | rfl | rfl | rfl) hn <;>
      rcases hn with h | h <;>
      cases ha : jsToNumber actual <;> cases he : jsToNumber expected <;>
      simp_all [compareValues]
  · intro h
    simp only [knownOperators, List.mem_cons, List.not_mem_nil, or_false, not_or] at h
    obtain ⟨h1, h2, h3, h4, h5, h6, h7, h8, h9, h10, h11, h12, h13, h14, h15, h16, h17⟩ := h
    simp [compareValues, h1, h2, h3, h4, h5, h6, h7, h8, h9, h10, h11, h12, h13,
      h14, h15, h16, h17]

/-- C4 witness: a NaN operand under an ordering operator and an unknown
operator tag, both comparing to `false`. -/
theorem C4_compare_total_witness :
    compareValues JSVal.undef "GT" (JSVal.num 0) = false ∧
    compareValues (JSVal.num 1) "AFTER" (JSVal.num 1) = false :=
  ⟨(C4_compare_total JSVal.undef (JSVal.num 0) "GT").1 (Or.inl rfl) (Or.inl rfl),
   (C4_compare_total (JSVal.num 1) (JSVal.num 1) "AFTER").2 (by decide)⟩

/-- A key absent from an object looks up to `undefined`. -/
theorem objGet_of_not_has (b : List (String × JSVal)) (k : String)
    (h : objHas b k = false) : objGet b k = JSVal.undef := by
  induction b with
  | nil => rfl
  | cons p t ih =>
    simp only [objHas, List.any_cons, Bool.or_eq_false_iff] at h
    obtain ⟨h1, h2⟩ := h
    simp [objGet, objHas, h1, h2, ih h2]

/-- `objHas` distributes over append. -/
theorem objHas_append (a b : List (String × JSVal)) (k : String) :
    objHas (a ++ b) k = (objHas a k || objHas b k) := by
  simp [objHas, List.any_append]

/-- Mapping and then testing the results is testing the composite
(specialised to the identity test; Mathlib's `List.all_map` is unusable
here because it constrains the mapped function to an endomap). -/
theorem all_map_self {α : Type _} (l : List α) (f : α → Bool) :
    (l.map f).all (fun r => r) = l.all f := by
  induction l with
  | nil => rfl
  | cons a l ih => simp [ih]

/-- `any` analogue of `all_map_self`. -/
theorem any_map_self {α : Type _} (l : List α) (f : α → Bool) :
    (l.map f).any (fun r => r) = l.any f := by
  induction l with
  | nil => rfl
  | cons a l ih => simp [ih]

/-- Lookup on an overlay `a ++ b`: the later object `b` wins whenever it
holds the key, otherwise the base `a` is consulted. -/
theorem objGet_append (a b : List (String × JSVal)) (k : String) :
    objGet (a ++ b) k = if objHas b k then objGet b k else objGet a k := by
  induction a with
  | nil =>
    cases hb : objHas b k with
    | true => simp
    | false => simp [objGet_of_not_has b k hb, objGet]
  | cons p a ih =>
    obtain ⟨k', v⟩ := p
    cases hb : objHas b k with
    | true =>
      have h1 : objHas (a ++ b) k = true := by rw [objHas_append, hb, Bool.or_true]
      simp only [hb, if_true] at ih ⊢
      simpa [objGet, h1] using ih
    | false =>
      have h1 : objHas (a ++ b) k = objHas a k := by rw [objHas_append, hb, Bool.or_false]
      simp only [hb, if_false, Bool.false_eq_true] at ih ⊢
      cases ha : objHas a k with
      | true => simp [objGet, h1, ha, ih]
      | false => simp [objGet, h1, ha, ih]

/-- C6: the field resolver walks the dotted path over the merged view
`ctx.data`, then the whole event record, then `ctx.globals` — later
overlays winning on key collisions — and totally: an absent (`undefined`
or `null`) intermediate value makes the walk return `undefined`
immediately. -/
theorem C6_resolver :
    (∀ (path : String) (ctx : ExecutionContext), path ≠ "" →
      getValueFromPath path ctx = pathWalk (strSplit path '.') (JSVal.obj (mergedView ctx))) ∧
    (∀ (ps : List String), ps ≠ [] →
      pathWalk ps JSVal.undef = JSVal.undef ∧ pathWalk ps JSVal.null = JSVal.undef) ∧
    (∀ (ctx : ExecutionContext) (k : String), objHas ctx.globals k = true →
      objGet (mergedView ctx) k = objGet ctx.globals k) ∧
    (∀ (ctx : ExecutionContext) (k : String), objHas ctx.globals k = false →
      objHas (eventToObj ctx.event) k = true →
      objGet (mergedView ctx) k = objGet (eventToObj ctx.event) k) ∧
    (∀ (ctx : ExecutionContext) (k : String), objHas ctx.globals k = false →
      objHas (eventToObj ctx.event) k = false →
      objGet (mergedView ctx) k = objGet ctx.data k) := by
  refine ⟨?_, ?_, ?_, ?_, ?_⟩
  · intro path ctx h
    simp [getValueFromPath, h]
  · intro ps h
    cases ps with
    | nil => exact absurd rfl h
    | cons p ps => exact ⟨rfl, rfl⟩
  · intro ctx k hg
    simp [mergedView, objGet_append, objHas_append, hg]
  · intro ctx k hg he
    simp [mergedView, objGet_append, objHas_append, hg, he]
  · intro ctx k hg he
    simp [mergedView, objGet_append, objHas_append, hg, he]

/-- C6 witness: a resolver call on a nonempty path, the undefined-cut on a
nonempty remaining path, and the overlay orders, all at concrete inputs. -/
theorem C6_resolver_witness :
    getValueFromPath "data.coins" sampleCtx =
      pathWalk (strSplit "data.coins" '.') (JSVal.obj (mergedView sampleCtx)) ∧
    pathWalk ["a", "b"] JSVal.undef = JSVal.undef ∧
    objGet (mergedView sampleCtx) "g" = objGet sampleCtx.globals "g" ∧
    objGet (mergedView sampleCtx) "type" = objGet (eventToObj sampleCtx.event) "type" ∧
    objGet (mergedView sampleCtx) "coins" = objGet sampleCtx.data "coins" :=
  ⟨C6_resolver.1 "data.coins" sampleCtx (by decide),
   (C6_resolver.2.1 ["a", "b"] (by decide)).1,
   C6_resolver.2.2.1 sampleCtx "g" (by rfl),
   C6_resolver.2.2.2.1 sampleCtx "type" (by rfl) (by rfl),
   C6_resolver.2.2.2.2 sampleCtx "coins" (by rfl) (by rfl)⟩

/-- C7: grouped evaluation is vacuously true on an empty condition list;
on a nonempty list, AND logic returns true iff every sub-condition (a
simple triple) holds and OR logic returns true iff some sub-condition
holds. -/
theorem C7_group_condition (d : NodeData) (ctx : ExecutionContext) :
    (d.conditions = [] → evaluateGroupCondition d ctx = true) ∧
    (d.conditions ≠ [] → jsStrOr d.logic "AND" = "AND" →
      evaluateGroupCondition d ctx =
        d.conditions.all (fun c => evaluateSimpleCondition c ctx)) ∧
    (d.conditions ≠ [] → jsStrOr d.logic "AND" = "OR" →
      evaluateGroupCondition d ctx =
        d.conditions.any (fun c => evaluateSimpleCondition c ctx)) := by
  refine ⟨?_, ?_, ?_⟩
  · intro h
    simp [evaluateGroupCondition, h]
  · intro hne hl
    simp [evaluateGroupCondition, hl, hne, all_map_self]
  · intro hne hl
    simp [evaluateGroupCondition, hl, hne, any_map_self]

/-- C7 witness: the empty grouped configuration evaluates to true, and a
nonempty OR group evaluates to the disjunction of its sub-conditions. -/
theorem C7_group_condition_witness :
    evaluateGroupCondition {} sampleRunCtx = true ∧
    evaluateGroupCondition sampleGroupData sampleRunCtx =
      sampleGroupData.conditions.any (fun c => evaluateSimpleCondition c sampleRunCtx) :=
  ⟨(C7_group_condition {} sampleRunCtx).1 rfl,
   (C7_group_condition sampleGroupData sampleRunCtx).2.2
     (by simp [sampleGroupData]) (by rfl)⟩

/-- C2: a run fails (`success = false`) exactly when the enabled nodes
contain no trigger; in that case the result carries the error string and an
empty executed set, and in every other case the run succeeds. -/
theorem C2_no_trigger_failure (nodes : List WorkflowNode) (conns : List Connection)
    (event : TestEvent) (clock0 : Nat) :
    ((executeWorkflow nodes conns event clock0).success = false ↔
      findTriggerNodes (nodes.filter (fun n => n.enabled)) = []) ∧
    (findTriggerNodes (nodes.filter (fun n => n.enabled)) = [] →
      (executeWorkflow nodes conns event clock0).error = some "No trigger nodes found" ∧
      (executeWorkflow nodes conns event clock0).executedNodes = []) := by
  cases hT : findTriggerNodes (nodes.filter (fun n => n.enabled)) with
  | nil => simp [executeWorkflow, executeWith, hT]
  | cons t ts => simp [executeWorkflow, executeWith, hT]

/-- C2 witness: a graph with no trigger node fails with the documented
error and empty executed set, and the single-trigger sample graph
succeeds. -/
theorem C2_no_trigger_failure_witness :
    (executeWorkflow [sampleChild] [] evSample 0).success = false ∧
    (executeWorkflow [sampleChild] [] evSample 0).error = some "No trigger nodes found" ∧
    (executeWorkflow [sampleChild] [] evSample 0).executedNodes = [] ∧
    (executeWorkflow [sampleTrigger] [] evSample 0).success = true := by
  have h : findTriggerNodes ([sampleChild].filter (fun n => n.enabled)) = [] := by rfl
  have h2 := (C2_no_trigger_failure [sampleChild] [] evSample 0).2 h
  refine ⟨(C2_no_trigger_failure [sampleChild] [] evSample 0).1.mpr h, h2.1, h2.2, ?_⟩
  have h3 : findTriggerNodes ([sampleTrigger].filter (fun n => n.enabled)) = [sampleTrigger] := by rfl
  have h4 := (C2_no_trigger_failure [sampleTrigger] [] evSample 0).1
  cases hs : (executeWorkflow [sampleTrigger] [] evSample 0).success with
  | false => rw [h3] at h4; exact absurd (h4.mp hs) (by simp)
  | true => rfl

/-- C3: a throwing kind-specific step is contained at the per-node
boundary: `executeNode` catches it, appends an `ERROR` trace entry after
whatever the step logged before throwing, does not add the node to the
executed set, and returns normally (it is a total function into the next
state, so the run continues). The step hypothesis states that the step
threw and that it left the executed set alone, as every kind-specific step
of the source does. -/
theorem C3_node_error_contained (step : Step) (node : WorkflowNode)
    (ctx : ExecutionContext) (s : ExecState) (e : String)
    (herr : (step node ctx (s.addLog (execStartEntry node))).2 = some e)
    (hexe : (step node ctx (s.addLog (execStartEntry node))).1.executedNodes =
      s.executedNodes) :
    (executeNode step node ctx s).executedNodes = s.executedNodes ∧
    (executeNode step node ctx s).logs =
      (step node ctx (s.addLog (execStartEntry node))).1.logs ++
        [nodeErrorEntry node e (step node ctx (s.addLog (execStartEntry node))).1.clock] ∧
    (nodeErrorEntry node e
      (step node ctx (s.addLog (execStartEntry node))).1.clock).level = LogLevel.ERROR := by
  unfold executeNode
  rcases hr : step node ctx (s.addLog (execStartEntry node)) with ⟨s2, err⟩
  rw [hr] at herr hexe
  simp only at herr hexe
  subst herr
  dsimp only
  rw [hr]
  simp [ExecState.addLog, hexe, nodeErrorEntry]

/-- C3 witness: the always-throwing step on the sample child node. -/
theorem C3_node_error_contained_witness :
    (executeNode failStep sampleChild sampleRunCtx sampleAfterTrigger).executedNodes =
      sampleAfterTrigger.executedNodes ∧
    (executeNode failStep sampleChild sampleRunCtx sampleAfterTrigger).logs =
      (failStep sampleChild sampleRunCtx
          (sampleAfterTrigger.addLog (execStartEntry sampleChild))).1.logs ++
        [nodeErrorEntry sampleChild "boom"
          (failStep sampleChild sampleRunCtx
            (sampleAfterTrigger.addLog (execStartEntry sampleChild))).1.clock] ∧
    (nodeErrorEntry sampleChild "boom"
      (failStep sampleChild sampleRunCtx
        (sampleAfterTrigger.addLog (execStartEntry sampleChild))).1.clock).level =
      LogLevel.ERROR :=
  C3_node_error_contained failStep sampleChild sampleRunCtx sampleAfterTrigger "boom" rfl rfl

/-- Appending log entries does not change the observable components. -/
theorem obsEq_addLog {s1 s2 : ExecState} (h : obsEq s1 s2)
    (f g : Nat → LogEntry) : obsEq (s1.addLog f) (s2.addLog g) := by
  obtain ⟨h1, h2⟩ := h
  exact ⟨by simpa [ExecState.addLog] using h1, by simpa [ExecState.addLog] using h2⟩

/-- Setting the same condition outcome preserves observational equality. -/
theorem obsEq_setCond {s1 s2 : ExecState} (h : obsEq s1 s2) (k : String) (b : Bool) :
    obsEq (s1.setCond k b) (s2.setCond k b) := by
  obtain ⟨h1, h2⟩ := h
  exact ⟨by simpa [ExecState.setCond] using h1, by simp [ExecState.setCond, h2]⟩

/-- Marking the same node executed preserves observational equality. -/
theorem obsEq_markExecuted {s1 s2 : ExecState} (h : obsEq s1 s2) (id : String) :
    obsEq (s1.markExecuted id) (s2.markExecuted id) := by
  obtain ⟨h1, h2⟩ := h
  unfold ExecState.markExecuted
  rw [h1]
  by_cases hc : s2.executedNodes.contains id = true
  · simp only [hc, if_true]
    exact ⟨h1, h2⟩
  · simp only [hc, if_false]
    exact ⟨by simp [h1], h2⟩

/-- The per-action trace fold preserves observational equality. -/
theorem obsEq_foldl_addLog {s1 s2 : ExecState} (h : obsEq s1 s2)
    (l : List (Nat × ActionData)) :
    obsEq (l.foldl (fun st ia => st.addLog (singleActionEntry ia.1 ia.2)) s1)
          (l.foldl (fun st ia => st.addLog (singleActionEntry ia.1 ia.2)) s2) := by
  induction l generalizing s1 s2 with
  | nil => exact h
  | cons a l ih => exact ih (obsEq_addLog h _ _)

/-- The source's kind-specific dispatch respects observational equality:
its decisions read only the node, the context, and nothing of the state. -/
theorem concreteStep_congr : stepCongr concreteStep := by
  intro node ctx s1 s2 h
  unfold concreteStep
  cases ht : node.type with
  | TRIGGER => exact ⟨obsEq_setCond (obsEq_addLog h _ _) _ _, rfl⟩
  | CONDITION => exact ⟨obsEq_setCond (obsEq_addLog h _ _) _ _, rfl⟩
  | ACTION =>
    exact ⟨obsEq_setCond (obsEq_addLog (obsEq_foldl_addLog (obsEq_addLog h _ _) _) _ _) _ _, rfl⟩

/-- Pass/fail gating reads only the observable components. -/
theorem nodePassedCondition_obsEq {s1 s2 : ExecState} (h : obsEq s1 s2)
    (nodes : List WorkflowNode) (x : String) :
    nodePassedCondition nodes s1 x = nodePassedCondition nodes s2 x := by
  unfold nodePassedCondition
  rw [h.2]

/-- `executeNode` with a congruent step respects observational equality. -/
theorem obsEq_executeNode {step : Step} (hc : stepCongr step)
    (node : WorkflowNode) (ctx : ExecutionContext) {s1 s2 : ExecState}
    (h : obsEq s1 s2) :
    obsEq (executeNode step node ctx s1) (executeNode step node ctx s2) := by
  unfold executeNode
  have h1 := obsEq_addLog h (execStartEntry node) (execStartEntry node)
  obtain ⟨ho, he⟩ := hc node ctx _ _ h1
  rcases hr1 : step node ctx (s1.addLog (execStartEntry node)) with ⟨t1, e1⟩
  rcases hr2 : step node ctx (s2.addLog (execStartEntry node)) with ⟨t2, e2⟩
  rw [hr1, hr2] at ho he
  simp only at ho he
  dsimp only
  rw [hr1, hr2]
  subst he
  cases e1 with
  | none => exact obsEq_markExecuted ho _
  | some e => exact obsEq_addLog ho _ _

/-- One node of a propagation pass respects observational equality, in both
the state and the progress flag. -/
theorem passBody_obsEq {step : Step} (hc : stepCongr step)
    (nodes : List WorkflowNode) (conns : List Connection) (ctx : ExecutionContext)
    {a1 a2 : ExecState × Bool} (h : obsEq a1.1 a2.1) (hb : a1.2 = a2.2)
    (node : WorkflowNode) :
    obsEq (passBody step nodes conns ctx a1 node).1
      (passBody step nodes conns ctx a2 node).1 ∧
    (passBody step nodes conns ctx a1 node).2 =
      (passBody step nodes conns ctx a2 node).2 := by
  obtain ⟨h1, h2⟩ := h
  unfold passBody
  dsimp only
  rw [h1]
  have hnp : (fun c : Connection => nodePassedCondition nodes a1.1 c.sourceId) =
      (fun c : Connection => nodePassedCondition nodes a2.1 c.sourceId) := by
    funext c
    exact nodePassedCondition_obsEq ⟨h1, h2⟩ nodes c.sourceId
  rw [hnp]
  split_ifs with hc1 hc2 hc3 hc4 hc5
  · exact ⟨⟨h1, h2⟩, hb⟩
  · exact ⟨⟨h1, h2⟩, hb⟩
  · exact ⟨⟨h1, h2⟩, hb⟩
  · exact ⟨⟨h1, h2⟩, hb⟩
  · exact ⟨⟨h1, h2⟩, hb⟩
  · exact ⟨obsEq_executeNode hc node ctx ⟨h1, h2⟩, rfl⟩

/-- A whole propagation pass respects observational equality. -/
theorem foldl_passBody_obsEq {step : Step} (hc : stepCongr step)
    (nodes : List WorkflowNode) (conns : List Connection) (ctx : ExecutionContext) :
    ∀ (ns : List WorkflowNode) {a1 a2 : ExecState × Bool},
      obsEq a1.1 a2.1 → a1.2 = a2.2 →
      obsEq (ns.foldl (passBody step nodes conns ctx) a1).1
            (ns.foldl (passBody step nodes conns ctx) a2).1 ∧
      (ns.foldl (passBody step nodes conns ctx) a1).2 =
        (ns.foldl (passBody step nodes conns ctx) a2).2 := by
  intro ns
  induction ns with
  | nil => intro a1 a2 h hb; exact ⟨h, hb⟩
  | cons m ms ih =>
    intro a1 a2 h hb
    obtain ⟨h3, hb3⟩ := passBody_obsEq hc nodes conns ctx h hb m
    exact ih h3 hb3

/-- `propagationPass` respects observational equality. -/
theorem propagationPass_obsEq {step : Step} (hc : stepCongr step)
    (nodes : List WorkflowNode) (conns : List Connection) (ctx : ExecutionContext)
    {s1 s2 : ExecState} (h : obsEq s1 s2) :
    obsEq (propagationPass step nodes conns ctx s1).1
      (propagationPass step nodes conns ctx s2).1 ∧
    (propagationPass step nodes conns ctx s1).2 =
      (propagationPass step nodes conns ctx s2).2 := by
  unfold propagationPass
  exact foldl_passBody_obsEq hc nodes conns ctx nodes h rfl

/-- The bounded loop respects observational equality and runs for the same
number of iterations. -/
theorem propagateLoop_obsEq {step : Step} (hc : stepCongr step)
    (nodes : List WorkflowNode) (conns : List Connection) (ctx : ExecutionContext) :
    ∀ (fuel iterations : Nat) {s1 s2 : ExecState}, obsEq s1 s2 →
      obsEq (propagateLoop step nodes conns ctx fuel iterations s1).1
            (propagateLoop step nodes conns ctx fuel iterations s2).1 ∧
      (propagateLoop step nodes conns ctx fuel iterations s1).2 =
        (propagateLoop step nodes conns ctx fuel iterations s2).2 := by
  intro fuel
  induction fuel with
  | zero => intro iters s1 s2 h; exact ⟨h, rfl⟩
  | succ fuel ih =>
    intro iters s1 s2 h
    unfold propagateLoop
    by_cases hi : iters < maxIterations
    · simp only [hi, if_true]
      obtain ⟨hp1, hp2⟩ := propagationPass_obsEq hc nodes conns ctx h
      cases hps : (propagationPass step nodes conns ctx s1).2 with
      | true =>
        have hps2 : (propagationPass step nodes conns ctx s2).2 = true := by
          rw [← hp2, hps]
        simp only [hps, hps2, if_true]
        exact ih (iters + 1) hp1
      | false =>
        have hps2 : (propagationPass step nodes conns ctx s2).2 = false := by
          rw [← hp2, hps]
        simp only [hps, hps2, Bool.false_eq_true, if_false]
        exact ⟨hp1, by simp⟩
    · simp only [hi, if_false]
      exact ⟨h, by simp⟩

/-- `propagateExecution` respects observational equality. -/
theorem propagateExecution_obsEq {step : Step} (hc : stepCongr step)
    (nodes : List WorkflowNode) (conns : List Connection) (ctx : ExecutionContext)
    {s1 s2 : ExecState} (h : obsEq s1 s2) :
    obsEq (propagateExecution step nodes conns ctx s1)
      (propagateExecution step nodes conns ctx s2) := by
  unfold propagateExecution
  obtain ⟨h1, h2⟩ := propagateLoop_obsEq hc nodes conns ctx maxIterations 0 h
  dsimp only
  rw [h2]
  by_cases hi : maxIterations ≤ (propagateLoop step nodes conns ctx maxIterations 0 s2).2
  · simp only [hi, if_true]
    exact obsEq_addLog h1 _ _
  · simp only [hi, if_false]
    exact h1

/-- The trigger phase respects observational equality. -/
theorem triggerFold_obsEq {step : Step} (hc : stepCongr step)
    (event : TestEvent) (ctx : ExecutionContext) :
    ∀ (ts : List WorkflowNode) {s1 s2 : ExecState}, obsEq s1 s2 →
      obsEq (ts.foldl (fun s t =>
              if shouldExecuteTrigger t event then executeNode step t ctx s else s) s1)
            (ts.foldl (fun s t =>
              if shouldExecuteTrigger t event then executeNode step t ctx s else s) s2) := by
  intro ts
  induction ts with
  | nil => intro s1 s2 h; exact h
  | cons t ts ih =>
    intro s1 s2 h
    simp only [List.foldl_cons]
    by_cases hs : shouldExecuteTrigger t event = true
    · simp only [hs, if_true]
      exact ih (obsEq_executeNode hc t ctx h)
    · simp only [hs, if_false]
      exact ih h

/-- C9: a run is a deterministic function of its inputs — two runs of the
same (nodes, connections, event) triple that differ only in the modelled
wall clock produce the same executed-node list and the same per-condition
pass/fail outcomes (trace entry ids and timestamps may differ). -/
theorem C9_deterministic (nodes : List WorkflowNode) (conns : List Connection)
    (event : TestEvent) (c1 c2 : Nat) :
    (executeWith concreteStep nodes conns event c1).1.executedNodes =
      (executeWith concreteStep nodes conns event c2).1.executedNodes ∧
    (executeWith concreteStep nodes conns event c1).2.nodeConditions =
      (executeWith concreteStep nodes conns event c2).2.nodeConditions := by
  unfold executeWith
  by_cases hT : (findTriggerNodes (nodes.filter (fun n => n.enabled))).isEmpty = true
  · simp only [hT, if_true]
    exact ⟨by simp, by simp [ExecState.addLog]⟩
  · simp only [hT, if_false]
    have h0 : obsEq ({ clock := c1 } : ExecState) ({ clock := c2 } : ExecState) := ⟨rfl, rfl⟩
    have h1 := triggerFold_obsEq concreteStep_congr event
      { event := event, data := event.data, globals := event.globals, vars := [] }
      (findTriggerNodes (nodes.filter (fun n => n.enabled))) h0
    have h2 := propagateExecution_obsEq concreteStep_congr
      (nodes.filter (fun n => n.enabled)) conns
      { event := event, data := event.data, globals := event.globals, vars := [] } h1
    exact ⟨h2.1, h2.2⟩

/-- A nonempty list is not `isEmpty`. -/
theorem isEmpty_false_of_ne_nil {α : Type _} {l : List α} (h : l ≠ []) :
    l.isEmpty = false := by
  cases l with
  | nil => exact absurd rfl h
  | cons a l => rfl

/-- String `==` is propositional-equality decision. -/
theorem strBeqDecide (x a : String) : (x == a) = decide (x = a) := by
  cases h : x == a with
  | true =>
    have h2 := beq_iff_eq.mp h
    simp [h2]
  | false =>
    have h2 : ¬(x = a) := by
      intro he
      subst he
      simp at h
    simp [h2]

/-- `contains` over a one-element append. -/
theorem contains_append_single (l : List String) (a x : String) :
    (l ++ [a]).contains x = (l.contains x || x == a) := by
  induction l with
  | nil => simp [List.contains_cons, strBeqDecide]
  | cons b l ih => simp [List.contains_cons, ih, Bool.or_assoc, strBeqDecide]

/-- `markExecuted` never removes an element. -/
theorem markExecuted_contains_mono (s : ExecState) (id x : String)
    (h : s.executedNodes.contains x = true) :
    (s.markExecuted id).executedNodes.contains x = true := by
  unfold ExecState.markExecuted
  split
  · exact h
  · show (s.executedNodes ++ [id]).contains x = true
    rw [contains_append_single, h, Bool.true_or]

/-- `markExecuted id` leaves membership of other ids unchanged. -/
theorem markExecuted_contains_ne (s : ExecState) (id x : String)
    (hne : (x == id) = false) :
    (s.markExecuted id).executedNodes.contains x = s.executedNodes.contains x := by
  unfold ExecState.markExecuted
  split
  · rfl
  · show (s.executedNodes ++ [id]).contains x = s.executedNodes.contains x
    rw [contains_append_single, hne, Bool.or_false]

/-- `markExecuted` does not touch the condition table. -/
theorem markExecuted_conds (s : ExecState) (id : String) :
    (s.markExecuted id).nodeConditions = s.nodeConditions := by
  unfold ExecState.markExecuted
  split <;> rfl

/-- A tame step inside `executeNode` can only add the node's own id to the
executed set: every previously executed id stays executed. -/
theorem executeNode_contains_mono {step : Step} (htame : stepTame step)
    (m : WorkflowNode) (ctx : ExecutionContext) (s : ExecState) (x : String)
    (h : s.executedNodes.contains x = true) :
    (executeNode step m ctx s).executedNodes.contains x = true := by
  unfold executeNode
  obtain ⟨he, _⟩ := htame m ctx (s.addLog (execStartEntry m))
  rcases hr : step m ctx (s.addLog (execStartEntry m)) with ⟨t, err⟩
  rw [hr] at he
  simp only at he
  dsimp only
  rw [hr]
  have ht : t.executedNodes.contains x = true := by
    rw [he]; exact h
  cases err with
  | none => exact markExecuted_contains_mono t m.id x ht
  | some e => simpa [ExecState.addLog] using ht

/-- A tame step inside `executeNode` on another node `m` cannot execute
`x ≠ m.id`. -/
theorem executeNode_contains_of_ne {step : Step} (htame : stepTame step)
    (m : WorkflowNode) (ctx : ExecutionContext) (s : ExecState) (x : String)
    (hne : (x == m.id) = false) (h : s.executedNodes.contains x = false) :
    (executeNode step m ctx s).executedNodes.contains x = false := by
  unfold executeNode
  obtain ⟨he, _⟩ := htame m ctx (s.addLog (execStartEntry m))
  rcases hr : step m ctx (s.addLog (execStartEntry m)) with ⟨t, err⟩
  rw [hr] at he
  simp only at he
  dsimp only
  rw [hr]
  have ht : t.executedNodes.contains x = false := by
    rw [he]; exact h
  cases err with
  | none => rw [markExecuted_contains_ne t m.id x hne]; exact ht
  | some e => simpa [ExecState.addLog] using ht

/-- `executeNode` on a node whose step throws leaves the executed set
untouched. -/
theorem executeNode_fail_executed {step : Step} (htame : stepTame step)
    (n : WorkflowNode) (ctx : ExecutionContext) (s : ExecState)
    (hfail : ((step n ctx (s.addLog (execStartEntry n))).2).isSome = true) :
    (executeNode step n ctx s).executedNodes = s.executedNodes := by
  unfold executeNode
  obtain ⟨he, _⟩ := htame n ctx (s.addLog (execStartEntry n))
  rcases hr : step n ctx (s.addLog (execStartEntry n)) with ⟨t, err⟩
  rw [hr] at he hfail
  simp only at he hfail
  dsimp only
  rw [hr]
  cases err with
  | none => simp at hfail
  | some e => simpa [ExecState.addLog] using he

/-- A tame step inside `executeNode` preserves recorded condition
outcomes. -/
theorem executeNode_conds_mono {step : Step} (htame : stepTame step)
    (m : WorkflowNode) (ctx : ExecutionContext) (s : ExecState) (k : String) (b : Bool)
    (h : mapGet s.nodeConditions k = some b) :
    mapGet (executeNode step m ctx s).nodeConditions k = some b := by
  unfold executeNode
  obtain ⟨_, hcnd⟩ := htame m ctx (s.addLog (execStartEntry m))
  rcases hr : step m ctx (s.addLog (execStartEntry m)) with ⟨t, err⟩
  rw [hr] at hcnd
  simp only at hcnd
  dsimp only
  rw [hr]
  have ht : mapGet t.nodeConditions k = some b := hcnd k b h
  cases err with
  | none => rw [markExecuted_conds]; exact ht
  | some e => simpa [ExecState.addLog] using ht

/-- Passing status is monotone in the recorded condition outcomes. -/
theorem nodePassedCondition_mono (nodes : List WorkflowNode) {s s' : ExecState}
    (hc : ∀ k b, mapGet s.nodeConditions k = some b → mapGet s'.nodeConditions k = some b)
    (x : String) (h : nodePassedCondition nodes s x = true) :
    nodePassedCondition nodes s' x = true := by
  unfold nodePassedCondition at h ⊢
  cases hf : nodes.find? (fun n => n.id == x) with
  | none =>
    rw [hf] at h
    simp at h
  | some m =>
    rw [hf] at h
    dsimp only at h ⊢
    by_cases hty : m.type = NodeType.TRIGGER ∨ m.type = NodeType.ACTION
    · rw [if_pos hty]
    · rw [if_neg hty] at h ⊢
      rw [beq_iff_eq] at h ⊢
      exact hc x true h

/-- The stuck-ready invariant survives executing any node of the graph: the
stuck node itself throws (so is never marked executed), other nodes only
grow the executed set and the outcome table. -/
theorem stuckReady_executeNode {step : Step} (htame : stepTame step)
    (nodes : List WorkflowNode) (conns : List Connection) (ctx : ExecutionContext)
    (n : WorkflowNode)
    (hfail : ∀ s' : ExecState, ((step n ctx s').2).isSome = true)
    (huniq : ∀ m ∈ nodes, m.id = n.id → m = n)
    (m : WorkflowNode) (hm : m ∈ nodes) (s : ExecState)
    (hinv : stuckReady nodes conns n s) :
    stuckReady nodes conns n (executeNode step m ctx s) := by
  obtain ⟨h1, h2, h3, h4⟩ := hinv
  refine ⟨?_, h2, ?_, ?_⟩
  · by_cases hmn : m = n
    · subst hmn
      rw [executeNode_fail_executed htame m ctx s (hfail _)]
      exact h1
    · have hne : (n.id == m.id) = false := by
        rw [beq_eq_false_iff_ne]
        intro hid
        exact hmn (huniq m hm hid.symm)
      exact executeNode_contains_of_ne htame m ctx s n.id hne h1
  · rw [List.all_eq_true] at h3 ⊢
    intro c hc
    exact executeNode_contains_mono htame m ctx s c.sourceId (h3 c hc)
  · rw [List.any_eq_true] at h4 ⊢
    obtain ⟨c, hc, hp⟩ := h4
    exact ⟨c, hc, nodePassedCondition_mono nodes
      (fun k b => executeNode_conds_mono htame m ctx s k b) c.sourceId hp⟩

/-- One `passBody` application preserves the stuck-ready invariant, keeps
the progress flag set, and sets it when it reaches the stuck node (whose
gates clear, so it is re-attempted). -/
theorem passBody_stuck {step : Step} (htame : stepTame step)
    (nodes : List WorkflowNode) (conns : List Connection) (ctx : ExecutionContext)
    (n : WorkflowNode)
    (hfail : ∀ s' : ExecState, ((step n ctx s').2).isSome = true)
    (hnt : n.type ≠ NodeType.TRIGGER)
    (huniq : ∀ m ∈ nodes, m.id = n.id → m = n)
    (m : WorkflowNode) (hm : m ∈ nodes) (acc : ExecState × Bool)
    (hinv : stuckReady nodes conns n acc.1) :
    stuckReady nodes conns n (passBody step nodes conns ctx acc m).1 ∧
    (acc.2 = true → (passBody step nodes conns ctx acc m).2 = true) ∧
    (m = n → (passBody step nodes conns ctx acc m).2 = true) := by
  unfold passBody
  dsimp only
  split_ifs with hc1 hc2 hc3 hc4 hc5
  · refine ⟨hinv, fun h => h, ?_⟩
    intro hmn
    subst hmn
    rw [hinv.1] at hc1
    simp at hc1
  · refine ⟨hinv, fun h => h, ?_⟩
    intro hmn
    subst hmn
    exact absurd hc2 hnt
  · refine ⟨hinv, fun h => h, ?_⟩
    intro hmn
    subst hmn
    rw [isEmpty_false_of_ne_nil hinv.2.1] at hc3
    simp at hc3
  · refine ⟨hinv, fun h => h, ?_⟩
    intro hmn
    subst hmn
    rw [hinv.2.2.1] at hc4
    simp at hc4
  · refine ⟨hinv, fun h => h, ?_⟩
    intro hmn
    subst hmn
    rw [hinv.2.2.2] at hc5
    simp at hc5
  · exact ⟨stuckReady_executeNode htame nodes conns ctx n hfail huniq m hm acc.1 hinv,
      fun _ => rfl, fun _ => rfl⟩

/-- A whole pass over the nodes preserves the invariant and reports
progress whenever the stuck node is in the list. -/
theorem foldl_passBody_stuck {step : Step} (htame : stepTame step)
    (nodes : List WorkflowNode) (conns : List Connection) (ctx : ExecutionContext)
    (n : WorkflowNode)
    (hfail : ∀ s' : ExecState, ((step n ctx s').2).isSome = true)
    (hnt : n.type ≠ NodeType.TRIGGER)
    (huniq : ∀ m ∈ nodes, m.id = n.id → m = n) :
    ∀ (ns : List WorkflowNode), (∀ m ∈ ns, m ∈ nodes) →
      ∀ (acc : ExecState × Bool), stuckReady nodes conns n acc.1 →
      stuckReady nodes conns n (ns.foldl (passBody step nodes conns ctx) acc).1 ∧
      ((n ∈ ns ∨ acc.2 = true) →
        (ns.foldl (passBody step nodes conns ctx) acc).2 = true) := by
  intro ns
  induction ns with
  | nil =>
    intro _ acc hinv
    refine ⟨hinv, ?_⟩
    rintro (h | h)
    · simp at h
    · exact h
  | cons m ms ih =>
    intro hsub acc hinv
    have hm : m ∈ nodes := hsub m (List.mem_cons_self m ms)
    obtain ⟨hinv1, hflag, hn⟩ :=
      passBody_stuck htame nodes conns ctx n hfail hnt huniq m hm acc hinv
    have hsub2 : ∀ x ∈ ms, x ∈ nodes := fun x hx => hsub x (List.mem_cons_of_mem m hx)
    simp only [List.foldl_cons]
    obtain ⟨ih1, ih2⟩ := ih hsub2 (passBody step nodes conns ctx acc m) hinv1
    refine ⟨ih1, ?_⟩
    rintro (h | h)
    · rcases List.mem_cons.mp h with rfl | hms
      · exact ih2 (Or.inr (hn rfl))
      · exact ih2 (Or.inl hms)
    · exact ih2 (Or.inr (hflag h))

/-- With a stuck-ready node in the graph every bounded-loop pass makes
"progress", so the loop runs its full fuel and returns the cap as its
iteration count, the invariant surviving to the end. -/
theorem propagateLoop_stuck {step : Step} (htame : stepTame step)
    (nodes : List WorkflowNode) (conns : List Connection) (ctx : ExecutionContext)
    (n : WorkflowNode)
    (hfail : ∀ s' : ExecState, ((step n ctx s').2).isSome = true)
    (hmem : n ∈ nodes) (hnt : n.type ≠ NodeType.TRIGGER)
    (huniq : ∀ m ∈ nodes, m.id = n.id → m = n) :
    ∀ (fuel iterations : Nat) (s : ExecState), stuckReady nodes conns n s →
      iterations + fuel ≤ maxIterations →
      (propagateLoop step nodes conns ctx fuel iterations s).2 = iterations + fuel ∧
      stuckReady nodes conns n (propagateLoop step nodes conns ctx fuel iterations s).1 := by
  intro fuel
  induction fuel with
  | zero =>
    intro iters s hinv _
    exact ⟨rfl, hinv⟩
  | succ fuel ih =>
    intro iters s hinv hbound
    have hi : iters < maxIterations := by omega
    unfold propagateLoop
    simp only [hi, if_true]
    obtain ⟨hp1, hp2⟩ := foldl_passBody_stuck htame nodes conns ctx n hfail hnt huniq
      nodes (fun m hm => hm) (s, false) hinv
    have hch : (propagationPass step nodes conns ctx s).2 = true :=
      hp2 (Or.inl hmem)
    have hppinv : stuckReady nodes conns n (propagationPass step nodes conns ctx s).1 := hp1
    simp only [propagationPass] at hch hppinv ⊢
    simp only [hch, if_true]
    obtain ⟨ihc, ihinv⟩ := ih (iters + 1)
      ((nodes.foldl (passBody step nodes conns ctx) (s, false)).1) hppinv (by omega)
    exact ⟨by rw [ihc]; omega, ihinv⟩

/-- C10: a non-trigger node whose gates clear (all parents executed, some
parent passed) but whose kind-specific step throws on every attempt is
re-attempted on every pass — the throw does not clear the progress flag —
so the loop runs the full 100-iteration cap regardless of the graph's
shape (the witness graph is acyclic) and the timeout `ERROR` entry is
appended; the node itself is never marked executed. -/
theorem C10_failing_node_exhausts_cap (step : Step) (nodes : List WorkflowNode)
    (conns : List Connection) (ctx : ExecutionContext) (n : WorkflowNode) (s : ExecState)
    (htame : stepTame step)
    (hfail : ∀ s' : ExecState, ((step n ctx s').2).isSome = true)
    (hmem : n ∈ nodes) (hnt : n.type ≠ NodeType.TRIGGER)
    (huniq : ∀ m ∈ nodes, m.id = n.id → m = n)
    (hinv : stuckReady nodes conns n s) :
    (propagateLoop step nodes conns ctx maxIterations 0 s).2 = maxIterations ∧
    propagateExecution step nodes conns ctx s =
      ((propagateLoop step nodes conns ctx maxIterations 0 s).1).addLog timeoutEntry ∧
    (∀ t : Nat, (timeoutEntry t).level = LogLevel.ERROR) ∧
    (propagateExecution step nodes conns ctx s).executedNodes.contains n.id = false := by
  obtain ⟨hcap, hstuck⟩ := propagateLoop_stuck htame nodes conns ctx n hfail hmem hnt huniq
    maxIterations 0 s hinv (by omega)
  simp only [Nat.zero_add] at hcap
  have hpe : propagateExecution step nodes conns ctx s =
      ((propagateLoop step nodes conns ctx maxIterations 0 s).1).addLog timeoutEntry := by
    unfold propagateExecution
    dsimp only
    rw [hcap]
    simp
  refine ⟨hcap, hpe, fun t => rfl, ?_⟩
  rw [hpe]
  have : ((propagateLoop step nodes conns ctx maxIterations 0 s).1.addLog
      timeoutEntry).executedNodes =
      (propagateLoop step nodes conns ctx maxIterations 0 s).1.executedNodes := rfl
  rw [this]
  exact hstuck.1

/-- C10 witness: acyclic graph trigger `T` → child `B`, the trigger already
executed and passing, `B`'s step always throwing. -/
theorem C10_failing_node_exhausts_cap_witness :
    (propagateLoop failStep [sampleTrigger, sampleChild] [edgeTB] sampleRunCtx
      maxIterations 0 sampleAfterTrigger).2 = maxIterations ∧
    propagateExecution failStep [sampleTrigger, sampleChild] [edgeTB] sampleRunCtx
        sampleAfterTrigger =
      ((propagateLoop failStep [sampleTrigger, sampleChild] [edgeTB] sampleRunCtx
        maxIterations 0 sampleAfterTrigger).1).addLog timeoutEntry ∧
    (∀ t : Nat, (timeoutEntry t).level = LogLevel.ERROR) ∧
    (propagateExecution failStep [sampleTrigger, sampleChild] [edgeTB] sampleRunCtx
      sampleAfterTrigger).executedNodes.contains sampleChild.id = false :=
  C10_failing_node_exhausts_cap failStep [sampleTrigger, sampleChild] [edgeTB]
    sampleRunCtx sampleChild sampleAfterTrigger
    (fun _ _ s => ⟨rfl, fun _ _ h => h⟩)
    (fun _ => rfl)
    (by simp)
    (by decide)
    (by
      intro m hm hid
      rcases List.mem_cons.mp hm with rfl | hm2
      · exact absurd hid (by decide)
      · rcases List.mem_cons.mp hm2 with rfl | hm3
        · rfl
        · simp at hm3)
    (by
      refine ⟨by rfl, ?_, by rfl, by rfl⟩
      intro h
      have : ([edgeTB].filter (fun c => c.targetId == sampleChild.id)) = [edgeTB] := rfl
      rw [this] at h
      simp at h)

end TW
